import Mathlib

/-!
Verification of the write-assist pipeline core: consensus (Borda) ranking,
recommended-edit selection, parallel fan-out partitioning, padding repair,
retry/caching behaviour of the structured-call executor, and provider-identity
obfuscation.  Python dicts are modelled as insertion-ordered association lists,
`collections.Counter` as an association list with counts, and Python floats as
rationals.  Sources: `src/write_assist/pipeline/pipeline.py`,
`src/write_assist/agents/base.py`, `src/write_assist/agents/models.py`,
`src/write_assist/artifacts/obfuscation.py`, `src/write_assist/llm/exceptions.py`,
`src/write_assist/caching/llm_cache.py`.
-/

namespace WriteAssist

/-- `Provider = Literal["claude", "gemini", "chatgpt"]` (agents/models.py). -/
inductive Provider
  | claude
  | gemini
  | chatgpt
deriving DecidableEq, Repr, Fintype

/-- `Alias = Literal["aleph", "bet", "gimel"]` (artifacts/obfuscation.py). -/
inductive Alias
  | aleph
  | bet
  | gimel
deriving DecidableEq, Repr, Fintype

/-- `PROVIDERS: list[Provider] = ["claude", "gemini", "chatgpt"]` (obfuscation.py). -/
def PROVIDERS : List Provider := [.claude, .gemini, .chatgpt]

/-- `ALIASES: list[Alias] = ["aleph", "bet", "gimel"]` (obfuscation.py). -/
def ALIASES : List Alias := [.aleph, .bet, .gimel]

/-! ### Association-list model of Python dicts

A Python `dict` preserves insertion order; updating an existing key keeps its
position, assigning a fresh key appends it.  We model a dict as a `List (κ × α)`
whose keys are pairwise distinct. -/

/-- The keys of a dict, in insertion order (`d.keys()`). -/
def alistKeys (d : List (κ × α)) : List κ := d.map Prod.fst

/-- Dict lookup `d.get(k)`: the value at the first matching key, if any. -/
def alistGet? [DecidableEq κ] : List (κ × α) → κ → Option α
  | [], _ => none
  | e :: es, k => if e.1 = k then some e.2 else alistGet? es k

/-- Dict assignment `d[k] = v`: overwrite the entry in place if the key
exists (dicts built here always have pairwise-distinct keys, so the first
match is the only one), append otherwise. -/
def alistSet [DecidableEq κ] : List (κ × α) → κ → α → List (κ × α)
  | [], k, v => [(k, v)]
  | e :: es, k, v => if e.1 = k then (k, v) :: es else e :: alistSet es k v

/-- `Counter` read access: `c[k]` returns 0 for a missing key. -/
def counterGet [DecidableEq κ] (c : List (κ × Nat)) (k : κ) : Nat :=
  (alistGet? c k).getD 0

/-- `Counter` increment `c[k] += n` (a dict assignment of the incremented
count, so a fresh key is appended and an existing key keeps its position). -/
def counterAdd [DecidableEq κ] (c : List (κ × Nat)) (k : κ) (n : Nat) : List (κ × Nat) :=
  alistSet c k (counterGet c k + n)

/-! ### Agent output models (agents/models.py)

Python `float` fields are modelled as `Rat`, `datetime` timestamps as `Nat`
(an epoch count; no claim depends on time). -/

/-- `AgentMetadata` (agents/models.py). -/
structure AgentMetadata where
  model : String
  provider : Provider
  timestamp : Nat
  version : String := "1.0.0"
deriving DecidableEq, Repr

/-- The `source` field of a `Citation`. -/
inductive CitationSource
  | cite_assist
  | web
  | provided
deriving DecidableEq, Repr

/-- `Citation` (agents/models.py). -/
structure Citation where
  id : String
  full_citation : String
  source : CitationSource
deriving DecidableEq, Repr

/-- `Draft` (agents/models.py). -/
structure Draft where
  title : String
  content : String
  word_count : Int
  citations_used : List Citation := []
deriving DecidableEq, Repr

/-- `ResearchNotes` (agents/models.py). -/
structure ResearchNotes where
  sources_consulted : List String := []
  key_authorities : List String := []
  gaps_identified : List String := []
deriving DecidableEq, Repr

/-- `DraftResult` (agents/models.py). -/
structure DraftResult where
  draft : Draft
  research_notes : ResearchNotes
  metadata : AgentMetadata
deriving DecidableEq, Repr

/-- `IntegratedDraft` (agents/models.py). -/
structure IntegratedDraft where
  title : String
  content : String
  word_count : Int
deriving DecidableEq, Repr

/-- `IntegrationNotes` (agents/models.py). -/
structure IntegrationNotes where
  elements_from_claude : List String := []
  elements_from_gemini : List String := []
  elements_from_chatgpt : List String := []
  original_additions : List String := []
  elements_rejected : List String := []
deriving DecidableEq, Repr

/-- `QualityAssessment` (agents/models.py). -/
structure QualityAssessment where
  argument_strength : String
  citation_accuracy : String
  prose_quality : String
  structural_coherence : String
  remaining_weaknesses : List String := []
deriving DecidableEq, Repr

/-- `EditResult` (agents/models.py). -/
structure EditResult where
  integrated_draft : IntegratedDraft
  integration_notes : IntegrationNotes
  quality_assessment : QualityAssessment
  metadata : AgentMetadata
deriving DecidableEq, Repr

/-- `RankingEntry` (agents/models.py): one judge-assigned rank position. -/
structure RankingEntry where
  draft_source : Provider
  overall_score : Rat
  summary : String
deriving DecidableEq, Repr

/-- `Rankings` (agents/models.py): a judge's literal 1st/2nd/3rd ordering. -/
structure Rankings where
  first_place : RankingEntry
  second_place : RankingEntry
  third_place : RankingEntry
deriving DecidableEq, Repr

/-- `ScoreExplanation` (agents/models.py). -/
structure ScoreExplanation where
  score : Rat
  explanation : String
deriving DecidableEq, Repr

/-- `DetailedScore` (agents/models.py). -/
structure DetailedScore where
  argument_strength : ScoreExplanation
  citation_quality : ScoreExplanation
  prose_clarity : ScoreExplanation
  structural_coherence : ScoreExplanation
  academic_rigor : ScoreExplanation
  originality : ScoreExplanation
deriving DecidableEq, Repr

/-- `DetailedScores` (agents/models.py). -/
structure DetailedScores where
  claude_edit : DetailedScore
  gemini_edit : DetailedScore
  chatgpt_edit : DetailedScore
deriving DecidableEq, Repr

/-- `ComparativeAnalysis` (agents/models.py). -/
structure ComparativeAnalysis where
  strongest_arguments : String
  best_citations : String
  clearest_prose : String
  most_original : String
deriving DecidableEq, Repr

/-- `Recommendations` (agents/models.py). -/
structure Recommendations where
  for_human_review : List String := []
  potential_improvements : List String := []
  citation_concerns : List String := []
deriving DecidableEq, Repr

/-- `JudgeResult` (agents/models.py). -/
structure JudgeResult where
  rankings : Rankings
  detailed_scores : DetailedScores
  comparative_analysis : ComparativeAnalysis
  recommendations : Recommendations
  metadata : AgentMetadata
deriving DecidableEq, Repr

/-- `AgentError` (agents/models.py): the typed error record for one provider. -/
structure AgentError where
  provider : Provider
  error_type : String
  message : String
  original_error : Option String := none
deriving DecidableEq, Repr

/-- `ParallelRunResult` (agents/models.py): the succeeded/failed partition
returned by `BaseAgent.run_parallel`. -/
structure ParallelRunResult (α : Type) where
  successful : List (Provider × α)
  failed : List (Provider × AgentError)
deriving DecidableEq, Repr

/-! ### Consensus ranking (pipeline.py, `_calculate_consensus`) -/

/-- One judge's contribution to the Borda counter: `scores[first] += 3;
scores[second] += 2; scores[third] += 1` (pipeline.py lines 476-480). -/
def calcStep (scores : List (Provider × Nat)) (jr : JudgeResult) : List (Provider × Nat) :=
  counterAdd
    (counterAdd
      (counterAdd scores jr.rankings.first_place.draft_source 3)
      jr.rankings.second_place.draft_source 2)
    jr.rankings.third_place.draft_source 1

/-- One step of the stable descending insertion used to model
`Counter.most_common()`: the new item is placed before the first item with a
strictly smaller count, hence after every earlier item with an equal count. -/
def insertByCount (x : Provider × Nat) : List (Provider × Nat) → List (Provider × Nat)
  | [] => [x]
  | y :: ys => if y.2 < x.2 then x :: y :: ys else y :: insertByCount x ys

/-- `Counter.most_common()`: `sorted(c.items(), key=count, reverse=True)`,
a stable sort by count descending (CPython `sorted` is stable, and stability
is preserved under `reverse=True`), so ties keep insertion order. -/
def mostCommon (c : List (Provider × Nat)) : List (Provider × Nat) :=
  c.foldl (fun acc x => insertByCount x acc) []

/-- `WritingPipeline._calculate_consensus` (pipeline.py lines 465-483):
Borda count with 3/2/1 points over all successful judges, providers listed
by `most_common()` order; an empty judgment dict yields an empty list. -/
def calculate_consensus (judge_results : List (Provider × JudgeResult)) : List Provider :=
  if judge_results.isEmpty then []
  else
    (mostCommon ((judge_results.map Prod.snd).foldl calcStep [])).map Prod.fst

/-! Spec-side notions for stating the Borda claims. -/

/-- The three providers a judge votes for, in rank order 1st, 2nd, 3rd. -/
def judgeVotes (jr : JudgeResult) : List Provider :=
  [jr.rankings.first_place.draft_source,
   jr.rankings.second_place.draft_source,
   jr.rankings.third_place.draft_source]

/-- All votes across judges, in accumulation order. -/
def allVotes (jrs : List JudgeResult) : List Provider :=
  (jrs.map judgeVotes).flatten

/-- The spec's Borda total for a provider: 3 points per 1st place,
2 per 2nd, 1 per 3rd, summed across judges. -/
def bordaScore (jrs : List JudgeResult) (p : Provider) : Nat :=
  3 * jrs.countP (fun jr => decide (jr.rankings.first_place.draft_source = p))
    + 2 * jrs.countP (fun jr => decide (jr.rankings.second_place.draft_source = p))
    + jrs.countP (fun jr => decide (jr.rankings.third_place.draft_source = p))

/-- Position of the first occurrence of `p` in a list (the list's length when
`p` is absent); used to state the first-appearance tie-break. -/
def firstSeenRank : List Provider → Provider → Nat
  | [], _ => 0
  | q :: qs, p => if q = p then 0 else firstSeenRank qs p + 1

/-! ### Recommended edit (pipeline.py, `_get_recommended_edit`) -/

/-- The `for provider in consensus: if provider in edits: return edits[provider]`
loop of `_get_recommended_edit` (pipeline.py lines 495-497). -/
def findRankedEdit (edits : List (Provider × EditResult)) :
    List Provider → Option EditResult
  | [] => none
  | p :: ps =>
    match alistGet? edits p with
    | some e => some e
    | none => findRankedEdit edits ps

/-- `WritingPipeline._get_recommended_edit` (pipeline.py lines 485-500):
`None` when the consensus or the edit dict is empty; otherwise the edit of the
first consensus provider present in `edits`, falling back to
`next(iter(edits.values()), None)`. -/
def get_recommended_edit (consensus : List Provider)
    (edits : List (Provider × EditResult)) : Option EditResult :=
  if consensus.isEmpty || edits.isEmpty then none
  else
    match findRankedEdit edits consensus with
    | some e => some e
    | none => (edits.map Prod.snd).head?

/-! ### Padding repair (pipeline.py, `_prepare_drafts_for_editing` and
`_prepare_edits_for_judging`)

The source loops `while len(xs) < 3: xs.append(xs[0])` and returns `xs[:3]`.
Appending never changes `xs[0]`, so the loop is `xs ++ replicate (3 - len) x0`;
on an empty dict `xs[0]` raises `IndexError` (unreachable in the pipeline,
which guards each phase with `success_count < 1`), modelled by the `[]` arm. -/

/-- Pad a list to length 3 by repeating its first element, then truncate. -/
def padToThree : List α → List α
  | [] => []
  | x :: xs => ((x :: xs) ++ List.replicate (3 - (x :: xs).length) x).take 3

/-- `WritingPipeline._prepare_drafts_for_editing` (pipeline.py lines 433-447). -/
def prepare_drafts_for_editing (successful_drafts : List (Provider × DraftResult)) :
    List DraftResult :=
  padToThree (successful_drafts.map Prod.snd)

/-- `WritingPipeline._prepare_edits_for_judging` (pipeline.py lines 449-463). -/
def prepare_edits_for_judging (successful_edits : List (Provider × EditResult)) :
    List EditResult :=
  padToThree (successful_edits.map Prod.snd)

/-! ### Errors and the structured-call executor (llm/exceptions.py, agents/base.py)

`BaseAgent.run` builds the prompt, consults the response cache, and on a miss
calls the provider inside a tenacity retry loop
(`stop_after_attempt(max_retries)`,
`retry_if_exception_type((LLMError, ValueError, TimeoutError))`,
`reraise=True`).  `AuthenticationError`, `RateLimitError` and `APIError` are
all subclasses of `LLMError` (llm/exceptions.py), so all three are in the
retryable set.  Parsing/validation failures raise `ValueError` and are also
retried; the cache is written only after a successful parse. -/

/-- The concrete `LLMError` subclasses of llm/exceptions.py. -/
inductive LLMErrKind
  | authentication
  | rateLimit
  | apiError (status_code : Option Int)
deriving DecidableEq, Repr

/-- `type(e).__name__` for each `LLMError` subclass. -/
def llmErrName : LLMErrKind → String
  | .authentication => "AuthenticationError"
  | .rateLimit => "RateLimitError"
  | .apiError _ => "APIError"

/-- The exceptions `BaseAgent.run` can raise: an `LLMError` subclass from the
transport, a `ValueError` from `parse_json_response`, a `TimeoutError`, or any
other exception (caught by the final `except Exception` of `run_parallel`). -/
inductive RunExc
  | llm (kind : LLMErrKind) (message : String) (original : Option String)
  | valueError (message : String)
  | timeoutError (message : String)
  | other (typeName : String) (message : String)
deriving DecidableEq, Repr

/-- The outcome of one `client.chat` call inside `_call_with_retry`: a raw
response text, an `LLMError` subclass, or a `TimeoutError`. -/
inductive ChatOutcome
  | content (text : String)
  | llmFailure (kind : LLMErrKind) (message : String) (original : Option String)
  | timeoutFailure (message : String)
deriving DecidableEq, Repr

/-- The retry loop of `BaseAgent.run._call_with_retry` (base.py lines 252-284),
shallowly embedded: `parse` is the agent's `parse_json_response` (raising
`ValueError` on parse/validation failure, modelled as `Except String σ`),
`attempts i` is the outcome of the i-th network call, and `fuel` is the
remaining attempt budget.  Every failure kind — `LLMError` (hence also
`AuthenticationError`), `ValueError`, `TimeoutError` — is retried while budget
remains; the final attempt's error is re-raised (`reraise=True`).  Returns the
surfaced result, the number of network calls made, and the raw text written to
the cache (written only after a successful parse, base.py line 280).
A zero budget is modelled as an immediate tenacity `RetryError` with no call. -/
def retryGo (parse : String → Except String σ) (attempts : Nat → ChatOutcome) :
    Nat → Nat → Except RunExc σ × Nat × Option String
  | i, 0 => (.error (.other "RetryError" "retry budget exhausted"), i, none)
  | i, fuel + 1 =>
    match attempts i with
    | .content text =>
      match parse text with
      | .ok out => (.ok out, i + 1, some text)
      | .error m =>
        if fuel = 0 then (.error (.valueError m), i + 1, none)
        else retryGo parse attempts (i + 1) fuel
    | .llmFailure k m o =>
      if fuel = 0 then (.error (.llm k m o), i + 1, none)
      else retryGo parse attempts (i + 1) fuel
    | .timeoutFailure m =>
      if fuel = 0 then (.error (.timeoutError m), i + 1, none)
      else retryGo parse attempts (i + 1) fuel

/-- `_call_with_retry` entered with attempt index 0 and the full budget. -/
def callWithRetry (parse : String → Except String σ) (attempts : Nat → ChatOutcome)
    (max_retries : Nat) : Except RunExc σ × Nat × Option String :=
  retryGo parse attempts 0 max_retries

/-- `BaseAgent.run` (base.py lines 200-284) restricted to one cache key:
`cached` is the cache's value at the key computed by `make_key`.  A cache hit
short-circuits the network entirely and re-runs `parse_json_response` on the
cached text — a parse failure there raises at once, outside the retry
decorator, and nothing evicts the entry.  A miss runs the retry loop.
Returns the surfaced result, the number of network calls made, and the final
cache value at the key. -/
def agentRun (parse : String → Except String σ) (cached : Option String)
    (attempts : Nat → ChatOutcome) (max_retries : Nat) :
    Except RunExc σ × Nat × Option String :=
  match cached with
  | some c => ((parse c).mapError .valueError, 0, some c)
  | none =>
    let r := callWithRetry parse attempts max_retries
    (r.1, r.2.1, r.2.2)

/-! ### Fan-out / fan-in (agents/base.py, `run_parallel`) -/

/-- The `AgentError` that `run_one` builds from each caught exception
(base.py lines 328-363): `LLMError` keeps its class name, message and, when
present, the original payload; `ValueError` becomes a `"ValidationError"`
record; any other exception keeps its type name and message.  The `provider`
field is always the provider `run_one` was called with. -/
def agentErrorOfExc (p : Provider) : RunExc → AgentError
  | .llm k m o => { provider := p, error_type := llmErrName k, message := m, original_error := o }
  | .valueError m => { provider := p, error_type := "ValidationError", message := m }
  | .timeoutError m => { provider := p, error_type := "TimeoutError", message := m }
  | .other t m => { provider := p, error_type := t, message := m }

/-- `run_one` (base.py lines 317-363): run one provider, catching every
exception and returning the provider paired with a result or error record. -/
def runOne (out : Provider → Except RunExc α) (p : Provider) :
    Provider × Except AgentError α :=
  match out p with
  | .ok r => (p, .ok r)
  | .error e => (p, .error (agentErrorOfExc p e))

/-- The separation loop of `run_parallel` (base.py lines 368-376): file each
`(provider, result)` pair into the successful or failed dict. -/
def gatherStep (pr : ParallelRunResult α) (r : Provider × Except AgentError α) :
    ParallelRunResult α :=
  match r with
  | (p, .ok v) => { pr with successful := alistSet pr.successful p v }
  | (p, .error e) => { pr with failed := alistSet pr.failed p e }

/-- `BaseAgent.run_parallel` (base.py lines 286-378): run every requested
provider (each provider's overall outcome is `out p`, the result of its
`run_one` task), then separate successes and failures into the two dicts.
Totality of this function is the "never raises" guarantee: `run_one` catches
`LLMError`, `ValueError` and bare `Exception`, so no outcome escapes. -/
def run_parallel (providers : List Provider) (out : Provider → Except RunExc α) :
    ParallelRunResult α :=
  (providers.map (runOne out)).foldl gatherStep ⟨[], []⟩

/-! ### Provider-identity obfuscation (artifacts/obfuscation.py) -/

/-- `ProviderMapping` (obfuscation.py lines 25-81): which provider each of the
three alias slots names.  No constructor validates that the three providers
are distinct. -/
structure ProviderMapping where
  aleph : Provider
  bet : Provider
  gimel : Provider
deriving DecidableEq, Repr, Fintype

/-- The provider list `[m.aleph, m.bet, m.gimel]` assigned across the three
alias slots. -/
def assignedProviders (m : ProviderMapping) : List Provider :=
  [m.aleph, m.bet, m.gimel]

/-- `get_provider` (obfuscation.py line 43): `getattr(self, alias)`. -/
def get_provider (m : ProviderMapping) : Alias → Provider
  | .aleph => m.aleph
  | .bet => m.bet
  | .gimel => m.gimel

/-- The `_reverse` dict built by `model_post_init` (obfuscation.py lines
35-41): `{self.aleph: "aleph", self.bet: "bet", self.gimel: "gimel"}` — with
duplicate providers the later literal entry overwrites the earlier one, so
lookup prefers `gimel`, then `bet`, then `aleph`.  `get_alias` is a plain dict
access, raising `KeyError` (here `none`) for an unassigned provider. -/
def get_alias (m : ProviderMapping) (p : Provider) : Option Alias :=
  if p = m.gimel then some .gimel
  else if p = m.bet then some .bet
  else if p = m.aleph then some .aleph
  else none

/-- `ProviderMapping.create_random` (obfuscation.py lines 63-72): shuffle the
provider list and assign positionally to aleph, bet, gimel.  The random
shuffle outcome is the parameter `shuffled`. -/
def create_random (shuffled : List Provider) : ProviderMapping :=
  { aleph := shuffled.getD 0 .claude
    bet := shuffled.getD 1 .claude
    gimel := shuffled.getD 2 .claude }

/-- Pydantic validation of a stored provider string against the `Provider`
literal type. -/
def parseProvider (s : String) : Option Provider :=
  if s = "claude" then some .claude
  else if s = "gemini" then some .gemini
  else if s = "chatgpt" then some .chatgpt
  else none

/-- `ProviderMapping.from_dict` (obfuscation.py lines 74-81):
`cls(aleph=mapping["aleph"], bet=mapping["bet"], gimel=mapping["gimel"])` —
a missing key raises `KeyError` and an invalid provider string fails pydantic
validation (both `none` here).  Distinctness of the values is not checked. -/
def from_dict (mapping : List (String × String)) : Option ProviderMapping :=
  match alistGet? mapping "aleph", alistGet? mapping "bet", alistGet? mapping "gimel" with
  | some a, some b, some g =>
    match parseProvider a, parseProvider b, parseProvider g with
    | some pa, some pb, some pg => some ⟨pa, pb, pg⟩
    | _, _, _ => none
  | _, _, _ => none

/-- The three case spellings Python produces for each provider name:
`"claude"`, `"claude".title() = "Claude"`, `"claude".upper() = "CLAUDE"`,
and so on. -/
def providerName : Provider → String
  | .claude => "claude"
  | .gemini => "gemini"
  | .chatgpt => "chatgpt"

/-- `provider.title()`. -/
def providerTitle : Provider → String
  | .claude => "Claude"
  | .gemini => "Gemini"
  | .chatgpt => "Chatgpt"

/-- `provider.upper()`. -/
def providerUpper : Provider → String
  | .claude => "CLAUDE"
  | .gemini => "GEMINI"
  | .chatgpt => "CHATGPT"

/-- `"aleph"`, `"bet"`, `"gimel"`. -/
def aliasName : Alias → String
  | .aleph => "aleph"
  | .bet => "bet"
  | .gimel => "gimel"

/-- `alias.title()`. -/
def aliasTitle : Alias → String
  | .aleph => "Aleph"
  | .bet => "Bet"
  | .gimel => "Gimel"

/-- `alias.upper()`. -/
def aliasUpper : Alias → String
  | .aleph => "ALEPH"
  | .bet => "BET"
  | .gimel => "GIMEL"

/-- All nine case spellings of provider names. -/
def providerVariants : List String :=
  ["claude", "gemini", "chatgpt", "Claude", "Gemini", "Chatgpt",
   "CLAUDE", "GEMINI", "CHATGPT"]

/-- All nine case spellings of alias names. -/
def aliasVariants : List String :=
  ["aleph", "bet", "gimel", "Aleph", "Bet", "Gimel", "ALEPH", "BET", "GIMEL"]

/-!
The text-rewrite utilities act by `str.replace` over the whole text.  The
round-trip claim is only about texts whose name occurrences are clean,
non-overlapping, exact tokens, so the text is embedded as its token list and
`str.replace` as exact-token replacement: a token equal to the pattern becomes
the substitution, every other token is untouched.  The source's iteration
structure (providers in `PROVIDERS` order; for each, the lower, title, upper
replacements in that order; aliases likewise in `ALIASES` order) is kept, so
chained rewrites across iterations are preserved.
-/

/-- `str.replace(pat, sub)` on a single clean token. -/
def replaceTok (pat sub tok : String) : String :=
  if tok = pat then sub else tok

/-- `obfuscate_provider_in_text` (obfuscation.py lines 84-97) on one token:
for each provider, replace its lower, title and upper spellings with the
alias's spellings.  `mapping.get_alias(provider)` raises `KeyError` (`none`)
when the provider is unassigned. -/
def obfuscateTokGo (m : ProviderMapping) (s : String) : List Provider → Option String
  | [] => some s
  | p :: ps =>
    match get_alias m p with
    | some a =>
      obfuscateTokGo m
        (replaceTok (providerUpper p) (aliasUpper a)
          (replaceTok (providerTitle p) (aliasTitle a)
            (replaceTok (providerName p) (aliasName a) s))) ps
    | none => none

/-- `obfuscate_provider_in_text` (obfuscation.py lines 84-97) on one token:
the loop over `PROVIDERS` in source order; `mapping.get_alias(provider)`
raises `KeyError` (`none`) for an unassigned provider, aborting the loop as
the exception would. -/
def obfuscateTok (m : ProviderMapping) (tok : String) : Option String :=
  obfuscateTokGo m tok PROVIDERS

/-- `reveal_provider_in_text` (obfuscation.py lines 100-113) on one token:
for each alias, replace its lower, title and upper spellings with the
provider's spellings (`get_provider` is a total attribute access). -/
def revealTok (m : ProviderMapping) (tok : String) : String :=
  ALIASES.foldl
    (fun s a =>
      let p := get_provider m a
      replaceTok (aliasUpper a) (providerUpper p)
        (replaceTok (aliasTitle a) (providerTitle p)
          (replaceTok (aliasName a) (providerName p) s)))
    tok

/-- `obfuscate_provider_in_text` over a tokenised text: every token is
rewritten; a `KeyError` on any token aborts (as the Python exception would). -/
def obfuscate_provider_in_text (m : ProviderMapping) : List String → Option (List String)
  | [] => some []
  | t :: ts =>
    match obfuscateTok m t, obfuscate_provider_in_text m ts with
    | some y, some ys => some (y :: ys)
    | _, _ => none

/-- `reveal_provider_in_text` over a tokenised text. -/
def reveal_provider_in_text (m : ProviderMapping) (text : List String) :
    List String :=
  text.map (revealTok m)

/-! ### Pipeline orchestration (pipeline.py, `run`)

`run` is embedded as a function of the drafting fan-out outcome and of the
editing/judging fan-out outcomes as functions of the prepared input lists
(the external LLM behaviour).  Timing, artifact storage, progress callbacks
and the pre-phases (source loading, citation lookup) are observational side
channels that never gate control flow and are omitted. -/

/-- `DocumentType = Literal["article", "casebook_section"]`. -/
inductive DocumentType
  | article
  | casebook_section
deriving DecidableEq, Repr

/-- `DrafterInput` (agents/models.py). -/
structure DrafterInput where
  topic : String
  document_type : DocumentType
  section_outline : String
  source_files : List String := []
  target_length : Option Int := none
  audience : String := "Legal academics and practitioners"
  style_variant : String := "standard"
deriving DecidableEq, Repr

/-- `PhaseResult` (pipeline/models.py) without the timing fields. -/
structure PhaseResult (α : Type) where
  phase_name : String
  successful : List (Provider × α)
  failed : List (Provider × AgentError)
deriving DecidableEq, Repr

/-- `PipelineResult` (pipeline/models.py) without the timing/path metadata. -/
structure PipelineResult where
  original_input : DrafterInput
  drafting_phase : PhaseResult DraftResult
  editing_phase : PhaseResult EditResult
  judging_phase : PhaseResult JudgeResult
  draft_results : List (Provider × DraftResult)
  edit_results : List (Provider × EditResult)
  judge_results : List (Provider × JudgeResult)
  consensus_ranking : List Provider := []
  recommended_edit : Option EditResult := none
deriving DecidableEq, Repr

/-- `WritingPipeline._create_failed_result` (pipeline.py lines 502-533):
the early-exit result when drafting yields zero successes — empty editing and
judging phases, empty downstream result dicts, default consensus and
recommendation, drafting phase passed through unchanged. -/
def create_failed_result (input : DrafterInput)
    (drafting_phase : PhaseResult DraftResult) : PipelineResult :=
  { original_input := input
    drafting_phase := drafting_phase
    editing_phase := ⟨"editing", [], []⟩
    judging_phase := ⟨"judging", [], []⟩
    draft_results := []
    edit_results := []
    judge_results := [] }

/-- `WritingPipeline._create_partial_result` (pipeline.py lines 535-563):
the early-exit result when editing yields zero successes. -/
def create_partial_result (input : DrafterInput)
    (drafting_phase : PhaseResult DraftResult)
    (editing_phase : PhaseResult EditResult)
    (draft_results : List (Provider × DraftResult)) : PipelineResult :=
  { original_input := input
    drafting_phase := drafting_phase
    editing_phase := editing_phase
    judging_phase := ⟨"judging", [], []⟩
    draft_results := draft_results
    edit_results := []
    judge_results := [] }

/-- `WritingPipeline.run` (pipeline.py lines 100-412), phase sequencing and
aggregation: draft, early-exit on zero drafts, prepare drafts and edit,
early-exit on zero edits, prepare edits and judge, then consensus and
recommended-edit aggregation. -/
def pipeline_run (input : DrafterInput)
    (draftRes : ParallelRunResult DraftResult)
    (editorOf : List DraftResult → ParallelRunResult EditResult)
    (judgeOf : List EditResult → ParallelRunResult JudgeResult) : PipelineResult :=
  let drafting_phase : PhaseResult DraftResult :=
    ⟨"drafting", draftRes.successful, draftRes.failed⟩
  if draftRes.successful.length < 1 then
    create_failed_result input drafting_phase
  else
    let drafts_list := prepare_drafts_for_editing draftRes.successful
    let editRes := editorOf drafts_list
    let editing_phase : PhaseResult EditResult :=
      ⟨"editing", editRes.successful, editRes.failed⟩
    if editRes.successful.length < 1 then
      create_partial_result input drafting_phase editing_phase draftRes.successful
    else
      let edits_list := prepare_edits_for_judging editRes.successful
      let judgeRes := judgeOf edits_list
      let judging_phase : PhaseResult JudgeResult :=
        ⟨"judging", judgeRes.successful, judgeRes.failed⟩
      let consensus := calculate_consensus judgeRes.successful
      let recommended := get_recommended_edit consensus editRes.successful
      { original_input := input
        drafting_phase := drafting_phase
        editing_phase := editing_phase
        judging_phase := judging_phase
        draft_results := draftRes.successful
        edit_results := editRes.successful
        judge_results := judgeRes.successful
        consensus_ranking := consensus
        recommended_edit := recommended }

/-! ### Proof-side auxiliary definitions -/

/-- Order-preserving accumulation of first appearances, starting from `init`. -/
def fsFrom (init : List Provider) (l : List Provider) : List Provider :=
  l.foldl (fun ks p => if p ∈ ks then ks else ks ++ [p]) init

/-- The first-appearance order of a vote list. -/
def fsOrder (l : List Provider) : List Provider := fsFrom [] l

/-- The weighted vote stream of the accumulation: per judge, the 1st, 2nd
and 3rd placed providers with 3, 2 and 1 points. -/
def wVotes (jrs : List JudgeResult) : List (Provider × Nat) :=
  (jrs.map (fun jr =>
    [(jr.rankings.first_place.draft_source, 3),
     (jr.rankings.second_place.draft_source, 2),
     (jr.rankings.third_place.draft_source, 1)])).flatten

/-- Accumulate a weighted vote stream into a counter. -/
def counterFold (wv : List (Provider × Nat)) (c : List (Provider × Nat)) :
    List (Provider × Nat) :=
  wv.foldl (fun acc v => counterAdd acc v.1 v.2) c

/-- Total weight a provider receives from a weighted vote stream. -/
def voteSum : List (Provider × Nat) → Provider → Nat
  | [], _ => 0
  | v :: vs, p => (if v.1 = p then v.2 else 0) + voteSum vs p

/-- The output relation of a stable descending sort over input relation `R`:
either strictly greater count, or equal count and `R` (input precedence). -/
def TRel (R : (Provider × Nat) → (Provider × Nat) → Prop)
    (a b : Provider × Nat) : Prop :=
  b.2 < a.2 ∨ (a.2 = b.2 ∧ R a b)

/-! ### Sample values for concrete instances -/

/-- A concrete metadata record. -/
def meta0 (p : Provider) : AgentMetadata :=
  { model := "model-x", provider := p, timestamp := 0 }

/-- A concrete draft result attributed to `p`. -/
def draftResult0 (p : Provider) : DraftResult :=
  { draft := { title := "T", content := "body", word_count := 100 }
    research_notes := {}
    metadata := meta0 p }

/-- A concrete edit result attributed to `p`. -/
def editResult0 (p : Provider) : EditResult :=
  { integrated_draft := { title := "T", content := "integrated", word_count := 120 }
    integration_notes := {}
    quality_assessment :=
      { argument_strength := "ok", citation_accuracy := "ok"
        prose_quality := "ok", structural_coherence := "ok" }
    metadata := meta0 p }

/-- A concrete detailed score block. -/
def detailedScore0 : DetailedScore :=
  { argument_strength := ⟨8, ""⟩, citation_quality := ⟨8, ""⟩
    prose_clarity := ⟨8, ""⟩, structural_coherence := ⟨8, ""⟩
    academic_rigor := ⟨8, ""⟩, originality := ⟨8, ""⟩ }

/-- A concrete judge result ranking `a` first, `b` second, `c` third. -/
def judgeResult0 (a b c : Provider) : JudgeResult :=
  { rankings :=
      { first_place := { draft_source := a, overall_score := 9, summary := "" }
        second_place := { draft_source := b, overall_score := 8, summary := "" }
        third_place := { draft_source := c, overall_score := 7, summary := "" } }
    detailed_scores :=
      { claude_edit := detailedScore0, gemini_edit := detailedScore0
        chatgpt_edit := detailedScore0 }
    comparative_analysis :=
      { strongest_arguments := "", best_citations := ""
        clearest_prose := "", most_original := "" }
    recommendations := {}
    metadata := meta0 a }

/-- The spec's Borda example: judge 1 ranks (A,B,C), judge 2 ranks (B,A,C),
with A = claude, B = gemini, C = chatgpt. -/
def judgesAB : List (Provider × JudgeResult) :=
  [(.claude, judgeResult0 .claude .gemini .chatgpt),
   (.gemini, judgeResult0 .gemini .claude .chatgpt)]

/-- A concrete drafter input. -/
def input0 : DrafterInput :=
  { topic := "The doctrine of consideration"
    document_type := .article
    section_outline := "1. Introduction" }

/-- A concrete agent error record. -/
def agentError0 : AgentError :=
  { provider := .claude, error_type := "APIError", message := "boom" }

/-- The identity shuffle outcome: aleph=claude, bet=gemini, gimel=chatgpt. -/
def mapping0 : ProviderMapping := create_random [.claude, .gemini, .chatgpt]

/-- A stored mapping dict assigning the same provider to all three aliases. -/
def dupDict : List (String × String) :=
  [("aleph", "claude"), ("bet", "claude"), ("gimel", "claude")]

/-! ### Dict and counter lemmas -/

theorem alistKeys_nil : alistKeys ([] : List (κ × α)) = [] := rfl

theorem alistKeys_cons (e : κ × α) (es : List (κ × α)) :
    alistKeys (e :: es) = e.1 :: alistKeys es := rfl

theorem alistGet?_set_self [DecidableEq κ] (d : List (κ × α)) (k : κ) (v : α) :
    alistGet? (alistSet d k v) k = some v := by
  induction d with
  | nil => simp [alistSet, alistGet?]
  | cons e es ih =>
    by_cases he : e.1 = k
    · simp [alistSet, alistGet?, he]
    · simp [alistSet, alistGet?, he, ih]

theorem alistGet?_set_ne [DecidableEq κ] (d : List (κ × α)) (k p : κ) (v : α)
    (hpk : p ≠ k) : alistGet? (alistSet d k v) p = alistGet? d p := by
  have hkp : k ≠ p := fun hh => hpk hh.symm
  induction d with
  | nil => simp [alistSet, alistGet?, hkp]
  | cons e es ih =>
    by_cases he : e.1 = k
    · simp [alistSet, alistGet?, he, hkp]
    · by_cases hep : e.1 = p
      · simp [alistSet, alistGet?, he, hep, hpk]
      · simp [alistSet, alistGet?, he, hep, ih]

theorem alistKeys_set [DecidableEq κ] (d : List (κ × α)) (k : κ) (v : α) :
    alistKeys (alistSet d k v) =
      if k ∈ alistKeys d then alistKeys d else alistKeys d ++ [k] := by
  induction d with
  | nil => simp [alistSet, alistKeys]
  | cons e es ih =>
    by_cases he : e.1 = k
    · simp [alistSet, alistKeys_cons, he]
    · have hne : k ≠ e.1 := fun hh => he hh.symm
      rw [alistSet, if_neg he, alistKeys_cons, alistKeys_cons, ih]
      by_cases hes : k ∈ alistKeys es
      · rw [if_pos hes, if_pos (List.mem_cons_of_mem _ hes)]
      · rw [if_neg hes, if_neg (by simp [hne, hes]), List.cons_append]

theorem alistGet?_isSome_iff [DecidableEq κ] (d : List (κ × α)) (k : κ) :
    (alistGet? d k).isSome = true ↔ k ∈ alistKeys d := by
  induction d with
  | nil => simp [alistGet?, alistKeys]
  | cons e es ih =>
    by_cases he : e.1 = k
    · simp [alistGet?, alistKeys_cons, he]
    · have hne : k ≠ e.1 := fun hh => he hh.symm
      simp only [alistGet?, if_neg he, alistKeys_cons, List.mem_cons]
      rw [ih]
      exact (or_iff_right hne).symm

theorem alistKeys_set_nodup [DecidableEq κ] (d : List (κ × α)) (k : κ) (v : α)
    (h : (alistKeys d).Nodup) : (alistKeys (alistSet d k v)).Nodup := by
  rw [alistKeys_set]
  by_cases hk : k ∈ alistKeys d
  · rwa [if_pos hk]
  · rw [if_neg hk]
    simp [List.nodup_append, h, hk]

theorem alistGet?_of_mem [DecidableEq κ] (d : List (κ × α)) (k : κ) (v : α)
    (hd : (alistKeys d).Nodup) (hm : (k, v) ∈ d) : alistGet? d k = some v := by
  induction d with
  | nil => simp at hm
  | cons e es ih =>
    rw [alistKeys_cons, List.nodup_cons] at hd
    rcases List.mem_cons.mp hm with h | h
    · simp [alistGet?, ← h]
    · have he : e.1 ≠ k := by
        intro hek
        exact hd.1 (hek ▸ (by simpa [alistKeys] using List.mem_map_of_mem Prod.fst h))
      rw [alistGet?, if_neg he]
      exact ih hd.2 h

theorem counterGet_add_self [DecidableEq κ] (c : List (κ × Nat)) (k : κ) (n : Nat) :
    counterGet (counterAdd c k n) k = counterGet c k + n := by
  simp [counterGet, counterAdd, alistGet?_set_self]

theorem counterGet_add_ne [DecidableEq κ] (c : List (κ × Nat)) (k p : κ) (n : Nat)
    (h : p ≠ k) : counterGet (counterAdd c k n) p = counterGet c p := by
  simp [counterGet, counterAdd, alistGet?_set_ne _ _ _ _ h]

/-! ### First-seen order -/

theorem mem_fsFrom (l : List Provider) : ∀ init x,
    x ∈ fsFrom init l ↔ x ∈ init ∨ x ∈ l := by
  induction l with
  | nil => simp [fsFrom]
  | cons p ps ih =>
    intro init x
    show x ∈ fsFrom (if p ∈ init then init else init ++ [p]) ps ↔ _
    rw [ih]
    by_cases hp : p ∈ init
    · simp only [if_pos hp, List.mem_cons]
      constructor
      · rintro (h | h)
        · exact Or.inl h
        · exact Or.inr (Or.inr h)
      · rintro (h | h | h)
        · exact Or.inl h
        · exact Or.inl (h ▸ hp)
        · exact Or.inr h
    · simp only [if_neg hp, List.mem_append, List.mem_singleton, List.mem_cons]
      tauto

theorem nodup_fsFrom (l : List Provider) : ∀ init,
    init.Nodup → (fsFrom init l).Nodup := by
  induction l with
  | nil => exact fun init h => h
  | cons p ps ih =>
    intro init hinit
    show (fsFrom (if p ∈ init then init else init ++ [p]) ps).Nodup
    by_cases hp : p ∈ init
    · rw [if_pos hp]; exact ih init hinit
    · rw [if_neg hp]
      exact ih _ (by simp [List.nodup_append, hinit, hp])

theorem fsFrom_append (l1 l2 : List Provider) (init : List Provider) :
    fsFrom init (l1 ++ l2) = fsFrom (fsFrom init l1) l2 := by
  simp [fsFrom, List.foldl_append]

theorem firstSeenRank_of_not_mem (l : List Provider) (x : Provider) (h : x ∉ l) :
    firstSeenRank l x = l.length := by
  induction l with
  | nil => rfl
  | cons q qs ih =>
    have hq : q ≠ x := fun hh => h (hh ▸ List.mem_cons_self q qs)
    simp only [firstSeenRank, if_neg hq, List.length_cons]
    rw [ih (fun hh => h (List.mem_cons_of_mem q hh))]

theorem firstSeenRank_lt_length (l : List Provider) (x : Provider) (h : x ∈ l) :
    firstSeenRank l x < l.length := by
  induction l with
  | nil => simp at h
  | cons q qs ih =>
    by_cases hq : q = x
    · simp [firstSeenRank, hq]
    · have : x ∈ qs := by
        rcases List.mem_cons.mp h with hh | hh
        · exact absurd hh.symm hq
        · exact hh
      simp only [firstSeenRank, if_neg hq, List.length_cons]
      exact Nat.succ_lt_succ (ih this)

theorem firstSeenRank_append_of_mem (l l2 : List Provider) (x : Provider)
    (h : x ∈ l) : firstSeenRank (l ++ l2) x = firstSeenRank l x := by
  induction l with
  | nil => simp at h
  | cons q qs ih =>
    by_cases hq : q = x
    · simp [firstSeenRank, hq]
    · have : x ∈ qs := by
        rcases List.mem_cons.mp h with hh | hh
        · exact absurd hh.symm hq
        · exact hh
      simp only [List.cons_append, firstSeenRank, if_neg hq, List.append_eq]
      rw [ih this]

theorem firstSeenRank_append_of_not_mem (l l2 : List Provider) (x : Provider)
    (h : x ∉ l) : firstSeenRank (l ++ l2) x = l.length + firstSeenRank l2 x := by
  induction l with
  | nil => simp
  | cons q qs ih =>
    have hq : q ≠ x := fun hh => h (hh ▸ List.mem_cons_self q qs)
    simp only [List.cons_append, firstSeenRank, if_neg hq, List.length_cons,
      List.append_eq]
    rw [ih (fun hh => h (List.mem_cons_of_mem q hh))]
    omega

theorem pairwise_fsOrder (l : List Provider) :
    (fsOrder l).Pairwise (fun x y => firstSeenRank l x < firstSeenRank l y) := by
  induction l using List.reverseRecOn with
  | nil => simp [fsOrder, fsFrom]
  | append_singleton xs q ih =>
    have hstep : fsOrder (xs ++ [q]) =
        if q ∈ fsOrder xs then fsOrder xs else fsOrder xs ++ [q] := by
      rw [fsOrder, fsFrom_append]
      rfl
    have hmem : ∀ x, x ∈ fsOrder xs ↔ x ∈ xs := by
      intro x; rw [fsOrder, mem_fsFrom]; simp
    have htransfer : (fsOrder xs).Pairwise
        (fun x y => firstSeenRank (xs ++ [q]) x < firstSeenRank (xs ++ [q]) y) := by
      refine ih.imp_of_mem ?_
      intro a b ha hb hab
      rw [firstSeenRank_append_of_mem xs [q] a ((hmem a).mp ha),
        firstSeenRank_append_of_mem xs [q] b ((hmem b).mp hb)]
      exact hab
    rw [hstep]
    by_cases hq : q ∈ fsOrder xs
    · rw [if_pos hq]; exact htransfer
    · rw [if_neg hq]
      have hql : q ∉ xs := fun hh => hq ((hmem q).mpr hh)
      rw [List.pairwise_append]
      refine ⟨htransfer, List.pairwise_singleton _ _, ?_⟩
      intro a ha b hb
      rw [List.mem_singleton] at hb
      subst hb
      have hal : a ∈ xs := (hmem a).mp ha
      rw [firstSeenRank_append_of_mem xs [b] a hal,
        firstSeenRank_append_of_not_mem xs [b] b hql]
      simp only [firstSeenRank, if_pos rfl]
      have := firstSeenRank_lt_length xs a hal
      omega

/-! ### The Borda counter as a fold over weighted votes -/

theorem wVotes_fst (jrs : List JudgeResult) :
    (wVotes jrs).map Prod.fst = allVotes jrs := by
  induction jrs with
  | nil => rfl
  | cons jr rest ih => simp [wVotes, allVotes, judgeVotes] at ih ⊢; exact ih

theorem foldl_calcStep_eq (jrs : List JudgeResult) : ∀ c,
    jrs.foldl calcStep c = counterFold (wVotes jrs) c := by
  induction jrs with
  | nil => intro c; rfl
  | cons jr rest ih =>
    intro c
    show rest.foldl calcStep (calcStep c jr) = _
    rw [ih]
    simp [wVotes, counterFold, calcStep]

theorem keys_counterFold (wv : List (Provider × Nat)) : ∀ c,
    alistKeys (counterFold wv c) = fsFrom (alistKeys c) (wv.map Prod.fst) := by
  induction wv with
  | nil => intro c; rfl
  | cons v vs ih =>
    intro c
    show alistKeys (counterFold vs (counterAdd c v.1 v.2)) = _
    rw [ih, counterAdd, alistKeys_set]
    rfl

theorem get_counterFold (wv : List (Provider × Nat)) : ∀ c p,
    counterGet (counterFold wv c) p = counterGet c p + voteSum wv p := by
  induction wv with
  | nil => intro c p; simp [counterFold, voteSum]
  | cons v vs ih =>
    intro c p
    show counterGet (counterFold vs (counterAdd c v.1 v.2)) p = _
    rw [ih]
    simp only [voteSum]
    by_cases hv : v.1 = p
    · rw [hv, counterGet_add_self, if_pos rfl]
      omega
    · rw [counterGet_add_ne _ _ _ _ (fun hh => hv hh.symm), if_neg hv]
      omega

theorem voteSum_append (a b : List (Provider × Nat)) (p : Provider) :
    voteSum (a ++ b) p = voteSum a p + voteSum b p := by
  induction a with
  | nil => simp [voteSum]
  | cons v vs ih =>
    simp only [List.cons_append, List.append_eq, voteSum, ih]
    omega

theorem voteSum_wVotes (jrs : List JudgeResult) (p : Provider) :
    voteSum (wVotes jrs) p = bordaScore jrs p := by
  induction jrs with
  | nil => simp [wVotes, voteSum, bordaScore]
  | cons jr rest ih =>
    have hw : wVotes (jr :: rest) =
        [(jr.rankings.first_place.draft_source, 3),
         (jr.rankings.second_place.draft_source, 2),
         (jr.rankings.third_place.draft_source, 1)] ++ wVotes rest := by
      simp [wVotes]
    rw [hw, voteSum_append, ih]
    simp only [voteSum, bordaScore, List.countP_cons, decide_eq_true_eq]
    split_ifs <;> omega

/-! ### Stability of the `most_common` sort -/

theorem mem_insertByCount (x z : Provider × Nat) (l : List (Provider × Nat)) :
    z ∈ insertByCount x l ↔ z = x ∨ z ∈ l := by
  induction l with
  | nil => simp [insertByCount]
  | cons y ys ih =>
    rw [insertByCount]
    split
    · simp [List.mem_cons]
    · simp [List.mem_cons, ih]
      tauto

theorem insertByCount_perm (x : Provider × Nat) (l : List (Provider × Nat)) :
    List.Perm (insertByCount x l) (x :: l) := by
  induction l with
  | nil => rfl
  | cons y ys ih =>
    rw [insertByCount]
    split
    · rfl
    · exact (ih.cons y).trans (List.Perm.swap x y ys)

theorem sortFold_perm (c : List (Provider × Nat)) : ∀ acc,
    List.Perm (c.foldl (fun a x => insertByCount x a) acc) (c ++ acc) := by
  induction c with
  | nil => intro acc; rfl
  | cons x xs ih =>
    intro acc
    show List.Perm (xs.foldl (fun a x => insertByCount x a) (insertByCount x acc)) _
    exact ((ih _).trans
      (List.Perm.append_left xs (insertByCount_perm x acc))).trans List.perm_middle

theorem mostCommon_perm (c : List (Provider × Nat)) : List.Perm (mostCommon c) c := by
  simpa using sortFold_perm c []

theorem TRel_le {R : (Provider × Nat) → (Provider × Nat) → Prop}
    {a b : Provider × Nat} (h : TRel R a b) : b.2 ≤ a.2 := by
  rcases h with h | ⟨h, _⟩ <;> omega

theorem insertByCount_pairwise (R : (Provider × Nat) → (Provider × Nat) → Prop)
    (x : Provider × Nat) : ∀ l : List (Provider × Nat),
    l.Pairwise (TRel R) → (∀ y ∈ l, R y x) →
    (insertByCount x l).Pairwise (TRel R) := by
  intro l
  induction l with
  | nil => intro _ _; simp [insertByCount]
  | cons y ys ih =>
    intro hl hx
    rw [List.pairwise_cons] at hl
    rw [insertByCount]
    split
    case isTrue hlt =>
      rw [List.pairwise_cons]
      constructor
      · intro z hz
        rcases List.mem_cons.mp hz with hzy | hzys
        · exact Or.inl (hzy ▸ hlt)
        · exact Or.inl (lt_of_le_of_lt (TRel_le (hl.1 z hzys)) hlt)
      · exact List.pairwise_cons.mpr hl
    case isFalse hge =>
      rw [List.pairwise_cons]
      constructor
      · intro z hz
        rcases (mem_insertByCount x z ys).mp hz with hzx | hzys
        · subst hzx
          rcases Nat.lt_or_ge z.2 y.2 with hlt2 | hge2
          · exact Or.inl hlt2
          · have : y.2 = z.2 := by omega
            exact Or.inr ⟨this, hx y (List.mem_cons_self y ys)⟩
        · exact hl.1 z hzys
      · exact ih hl.2 (fun z hz => hx z (List.mem_cons_of_mem y hz))

theorem sortFold_pairwise (R : (Provider × Nat) → (Provider × Nat) → Prop)
    (c : List (Provider × Nat)) : ∀ acc,
    c.Pairwise R → acc.Pairwise (TRel R) → (∀ x ∈ c, ∀ y ∈ acc, R y x) →
    (c.foldl (fun a x => insertByCount x a) acc).Pairwise (TRel R) := by
  induction c with
  | nil => intro acc _ hacc _; exact hacc
  | cons x xs ih =>
    intro acc hc hacc hcross
    rw [List.pairwise_cons] at hc
    show (xs.foldl (fun a x => insertByCount x a) (insertByCount x acc)).Pairwise _
    refine ih _ hc.2 ?_ ?_
    · exact insertByCount_pairwise R x acc hacc
        (fun y hy => hcross x (List.mem_cons_self x xs) y hy)
    · intro z hz y hy
      rcases (mem_insertByCount x y acc).mp hy with hyx | hyacc
      · exact hyx ▸ hc.1 z hz
      · exact hcross z (List.mem_cons_of_mem x hz) y hyacc

theorem mostCommon_pairwise (R : (Provider × Nat) → (Provider × Nat) → Prop)
    (c : List (Provider × Nat)) (hc : c.Pairwise R) :
    (mostCommon c).Pairwise (TRel R) :=
  sortFold_pairwise R c [] hc List.Pairwise.nil (by simp)

/-! ### Characterisation of `calculate_consensus` -/

theorem counter_keys (values : List JudgeResult) :
    alistKeys (counterFold (wVotes values) []) = fsOrder (allVotes values) := by
  rw [keys_counterFold, wVotes_fst]
  rfl

theorem counter_keys_nodup (values : List JudgeResult) :
    (alistKeys (counterFold (wVotes values) [])).Nodup := by
  rw [counter_keys]
  exact nodup_fsFrom _ [] List.Pairwise.nil

theorem counter_get (values : List JudgeResult) (p : Provider) :
    counterGet (counterFold (wVotes values) []) p = bordaScore values p := by
  rw [get_counterFold]
  simp [counterGet, alistGet?, voteSum_wVotes]

theorem counter_entry_score (values : List JudgeResult) (e : Provider × Nat)
    (he : e ∈ counterFold (wVotes values) []) : e.2 = bordaScore values e.1 := by
  have hget : alistGet? (counterFold (wVotes values) []) e.1 = some e.2 :=
    alistGet?_of_mem _ e.1 e.2 (counter_keys_nodup values) (by rwa [Prod.mk.eta])
  have : counterGet (counterFold (wVotes values) []) e.1 = e.2 := by
    simp [counterGet, hget]
  rw [← this, counter_get]

theorem counter_pairwise_rank (values : List JudgeResult) :
    (counterFold (wVotes values) []).Pairwise
      (fun a b => firstSeenRank (allVotes values) a.1 <
        firstSeenRank (allVotes values) b.1) := by
  have h := pairwise_fsOrder (allVotes values)
  rw [← counter_keys values, alistKeys] at h
  exact List.Pairwise.of_map Prod.fst (fun a b hab => hab) h

theorem calculate_consensus_eq (jrs : List (Provider × JudgeResult)) (h : jrs ≠ []) :
    calculate_consensus jrs =
      (mostCommon (counterFold (wVotes (jrs.map Prod.snd)) [])).map Prod.fst := by
  unfold calculate_consensus
  rw [if_neg (by simpa [List.isEmpty_iff] using h), foldl_calcStep_eq]

theorem consensus_nodup (jrs : List (Provider × JudgeResult)) :
    (calculate_consensus jrs).Nodup := by
  by_cases h : jrs = []
  · subst h
    simp [calculate_consensus]
  · rw [calculate_consensus_eq jrs h]
    rw [List.Perm.nodup_iff
      ((mostCommon_perm (counterFold (wVotes (jrs.map Prod.snd)) [])).map Prod.fst)]
    exact counter_keys_nodup (jrs.map Prod.snd)

theorem consensus_mem (jrs : List (Provider × JudgeResult)) (p : Provider) :
    p ∈ calculate_consensus jrs ↔ p ∈ allVotes (jrs.map Prod.snd) := by
  by_cases h : jrs = []
  · subst h
    simp [calculate_consensus, allVotes]
  · rw [calculate_consensus_eq jrs h, List.Perm.mem_iff
      ((mostCommon_perm (counterFold (wVotes (jrs.map Prod.snd)) [])).map Prod.fst)]
    show p ∈ alistKeys _ ↔ _
    rw [counter_keys, fsOrder, mem_fsFrom]
    simp

theorem consensus_pairwise (jrs : List (Provider × JudgeResult)) :
    (calculate_consensus jrs).Pairwise (fun p q =>
      bordaScore (jrs.map Prod.snd) q < bordaScore (jrs.map Prod.snd) p ∨
        (bordaScore (jrs.map Prod.snd) p = bordaScore (jrs.map Prod.snd) q ∧
          firstSeenRank (allVotes (jrs.map Prod.snd)) p <
            firstSeenRank (allVotes (jrs.map Prod.snd)) q)) := by
  by_cases h : jrs = []
  · subst h
    simp [calculate_consensus]
  · rw [calculate_consensus_eq jrs h, List.pairwise_map]
    have h2 := mostCommon_pairwise _ _ (counter_pairwise_rank (jrs.map Prod.snd))
    refine h2.imp_of_mem ?_
    intro a b ha hb hab
    have hamem : a ∈ counterFold (wVotes (jrs.map Prod.snd)) [] :=
      (mostCommon_perm _).mem_iff.mp ha
    have hbmem : b ∈ counterFold (wVotes (jrs.map Prod.snd)) [] :=
      (mostCommon_perm _).mem_iff.mp hb
    have ha2 := counter_entry_score _ a hamem
    have hb2 := counter_entry_score _ b hbmem
    rcases hab with hlt | ⟨heq, hr⟩
    · exact Or.inl (by rw [← ha2, ← hb2]; exact hlt)
    · exact Or.inr ⟨by rw [← ha2, ← hb2]; exact heq, hr⟩

/-! ### Padding-repair lemmas -/

theorem padToThree_length (x : α) (xs : List α) :
    (padToThree (x :: xs)).length = 3 := by
  simp [padToThree]
  omega

theorem padToThree_of_le (x : α) (xs : List α) (h : 3 ≤ (x :: xs).length) :
    padToThree (x :: xs) = (x :: xs).take 3 := by
  have h0 : 3 - (x :: xs).length = 0 := Nat.sub_eq_zero_of_le h
  rw [padToThree, h0]
  simp

theorem padToThree_of_lt (x : α) (xs : List α) (h : (x :: xs).length < 3) :
    padToThree (x :: xs) = (x :: xs) ++ List.replicate (3 - (x :: xs).length) x := by
  rw [padToThree]
  apply List.take_of_length_le
  simp only [List.length_cons] at h
  simp only [List.length_append, List.length_cons, List.length_replicate]
  omega

/-! ### Recommended-edit characterisation -/

theorem findRankedEdit_char (edits : List (Provider × EditResult)) :
    ∀ consensus : List Provider,
    findRankedEdit edits consensus =
      match (consensus.filter (fun p => (alistGet? edits p).isSome)).head? with
      | some p => alistGet? edits p
      | none => none := by
  intro consensus
  induction consensus with
  | nil => rfl
  | cons p ps ih =>
    by_cases hp : (alistGet? edits p).isSome
    · obtain ⟨e, he⟩ := Option.isSome_iff_exists.mp hp
      simp [findRankedEdit, List.filter_cons, hp, he]
    · rw [Option.not_isSome_iff_eq_none] at hp
      simp [findRankedEdit, List.filter_cons, hp, ih]

/-! ### Claim theorems

Each claim of the specification audit is settled by exactly one theorem
below (plus, where the claim fails on the code, a closed counterexample). -/

/-- Claim C2 counterexample: with an empty consensus but a non-empty edit
dict, `_get_recommended_edit` returns `None` (the guard
`if not consensus or not edits: return None` fires), so no available edit is
recommended — contradicting the claim's "when the consensus is empty but at
least one edit exists, some available edit is still recommended". -/
theorem claim2_recommended_counterexample :
    get_recommended_edit [] [(.claude, editResult0 .claude)] = none ∧
    [(Provider.claude, editResult0 .claude)] ≠ [] := by
  constructor
  · rfl
  · simp

/-- Claim C2 (amended): the recommended edit is the edit of the
highest-ranked consensus provider that has an edit, with fallback to the
first available edit only when the consensus is non-empty but none of its
providers has an edit; whenever the consensus is empty or the edit dict is
empty the result is `none` (even if edits exist). -/
theorem claim2_recommended_edit (consensus : List Provider)
    (edits : List (Provider × EditResult)) :
    (consensus = [] ∨ edits = [] → get_recommended_edit consensus edits = none) ∧
    (consensus ≠ [] → edits ≠ [] →
      match (consensus.filter (fun p => (alistGet? edits p).isSome)).head? with
      | some p => get_recommended_edit consensus edits = alistGet? edits p
      | none =>
          get_recommended_edit consensus edits = (edits.map Prod.snd).head?) := by
  constructor
  · rintro (h | h) <;> simp [get_recommended_edit, h]
  · intro h1 h2
    have hcond : (consensus.isEmpty || edits.isEmpty) = false := by
      simp [List.isEmpty_iff, h1, h2]
    have hmain : get_recommended_edit consensus edits =
        match findRankedEdit edits consensus with
        | some e => some e
        | none => (edits.map Prod.snd).head? := by
      rw [get_recommended_edit, hcond]
      rfl
    rw [findRankedEdit_char] at hmain
    rcases hh : (consensus.filter (fun p => (alistGet? edits p).isSome)).head? with
      _ | p
    · rw [hh] at hmain
      simpa using hmain
    · rw [hh] at hmain
      have hpmem : p ∈ consensus.filter (fun p => (alistGet? edits p).isSome) :=
        List.mem_of_mem_head? (by simp [hh])
      have hpsome : (alistGet? edits p).isSome := by
        simpa using (List.mem_filter.mp hpmem).2
      obtain ⟨e, he⟩ := Option.isSome_iff_exists.mp hpsome
      show get_recommended_edit consensus edits = alistGet? edits p
      rw [he]
      simpa [he] using hmain

/-- Claim C2 witness: consensus ranks gemini first and claude second; only
claude has an edit, so claude's edit is recommended. -/
theorem claim2_recommended_edit_witness :
    ([Provider.gemini, Provider.claude] ≠ []) ∧
    ([(Provider.claude, editResult0 .claude)] ≠
      ([] : List (Provider × EditResult))) ∧
    get_recommended_edit [.gemini, .claude] [(.claude, editResult0 .claude)] =
      some (editResult0 .claude) := by
  refine ⟨by simp, by simp, ?_⟩
  have h := (claim2_recommended_edit [.gemini, .claude]
    [(.claude, editResult0 .claude)]).2 (by simp) (by simp)
  exact h

/-- Claim C4: padding repair — for any non-empty draft dict (and edit dict),
the prepared list has length exactly 3; with at least 3 entries it is the
first three values with nothing added; with fewer it is exactly the
available values followed by copies of the first available value. -/
theorem claim4_padding_repair (p0 : Provider) (d0 : DraftResult)
    (restD : List (Provider × DraftResult))
    (q0 : Provider) (e0 : EditResult) (restE : List (Provider × EditResult)) :
    (prepare_drafts_for_editing ((p0, d0) :: restD)).length = 3 ∧
    (3 ≤ ((p0, d0) :: restD).length →
      prepare_drafts_for_editing ((p0, d0) :: restD) =
        (((p0, d0) :: restD).map Prod.snd).take 3) ∧
    (((p0, d0) :: restD).length < 3 →
      prepare_drafts_for_editing ((p0, d0) :: restD) =
        ((p0, d0) :: restD).map Prod.snd ++
          List.replicate (3 - ((p0, d0) :: restD).length) d0) ∧
    (prepare_edits_for_judging ((q0, e0) :: restE)).length = 3 ∧
    (3 ≤ ((q0, e0) :: restE).length →
      prepare_edits_for_judging ((q0, e0) :: restE) =
        (((q0, e0) :: restE).map Prod.snd).take 3) ∧
    (((q0, e0) :: restE).length < 3 →
      prepare_edits_for_judging ((q0, e0) :: restE) =
        ((q0, e0) :: restE).map Prod.snd ++
          List.replicate (3 - ((q0, e0) :: restE).length) e0) := by
  refine ⟨?_, ?_, ?_, ?_, ?_, ?_⟩
  · exact padToThree_length d0 (restD.map Prod.snd)
  · intro h
    exact padToThree_of_le d0 (restD.map Prod.snd) (by simpa using h)
  · intro h
    have := padToThree_of_lt d0 (restD.map Prod.snd) (by simpa using h)
    simpa [prepare_drafts_for_editing] using this
  · exact padToThree_length e0 (restE.map Prod.snd)
  · intro h
    exact padToThree_of_le e0 (restE.map Prod.snd) (by simpa using h)
  · intro h
    have := padToThree_of_lt e0 (restE.map Prod.snd) (by simpa using h)
    simpa [prepare_edits_for_judging] using this

/-- Claim C4 witness: one draft is tripled; two edits are padded with one
copy of the first edit. -/
theorem claim4_padding_repair_witness :
    prepare_drafts_for_editing [(.claude, draftResult0 .claude)] =
      [draftResult0 .claude, draftResult0 .claude, draftResult0 .claude] ∧
    prepare_edits_for_judging
        [(.claude, editResult0 .claude), (.gemini, editResult0 .gemini)] =
      [editResult0 .claude, editResult0 .gemini, editResult0 .claude] ∧
    (prepare_drafts_for_editing [(.claude, draftResult0 .claude)]).length = 3 := by
  have h := claim4_padding_repair .claude (draftResult0 .claude) []
    .claude (editResult0 .claude) [(.gemini, editResult0 .gemini)]
  refine ⟨?_, ?_, h.1⟩
  · have h2 := h.2.2.1 (by simp)
    simpa using h2
  · have h2 := h.2.2.2.2.2 (by simp)
    simpa using h2

/-- Claim C9: when drafting produces zero successes, `run` early-exits via
`_create_failed_result`: the editing and judging phases are empty (no
successes, no failures), all downstream result dicts are empty, the
consensus is empty, there is no recommended edit, and the drafting phase
(including its per-provider failure records) is preserved unchanged. -/
theorem claim9_zero_drafts_early_exit (input : DrafterInput)
    (draftRes : ParallelRunResult DraftResult)
    (editorOf : List DraftResult → ParallelRunResult EditResult)
    (judgeOf : List EditResult → ParallelRunResult JudgeResult)
    (h : draftRes.successful = []) :
    pipeline_run input draftRes editorOf judgeOf =
      { original_input := input
        drafting_phase := ⟨"drafting", [], draftRes.failed⟩
        editing_phase := ⟨"editing", [], []⟩
        judging_phase := ⟨"judging", [], []⟩
        draft_results := []
        edit_results := []
        judge_results := []
        consensus_ranking := []
        recommended_edit := none } := by
  simp [pipeline_run, create_failed_result, h]

/-- Claim C9 witness: a run whose three drafters all failed. -/
theorem claim9_zero_drafts_early_exit_witness :
    pipeline_run input0 ⟨[], [(.claude, agentError0)]⟩
        (fun _ => ⟨[], []⟩) (fun _ => ⟨[], []⟩) =
      { original_input := input0
        drafting_phase := ⟨"drafting", [], [(.claude, agentError0)]⟩
        editing_phase := ⟨"editing", [], []⟩
        judging_phase := ⟨"judging", [], []⟩
        draft_results := []
        edit_results := []
        judge_results := []
        consensus_ranking := []
        recommended_edit := none } :=
  claim9_zero_drafts_early_exit input0 ⟨[], [(.claude, agentError0)]⟩
    (fun _ => ⟨[], []⟩) (fun _ => ⟨[], []⟩) rfl

/-! ### Fan-out/fan-in characterisation -/

theorem agentErrorOfExc_provider (p : Provider) (exc : RunExc) :
    (agentErrorOfExc p exc).provider = p := by
  cases exc <;> rfl

theorem gather_untouched {α : Type} (rs : List (Provider × Except AgentError α)) :
    ∀ (acc : ParallelRunResult α) (q : Provider), (∀ r ∈ rs, r.1 ≠ q) →
      alistGet? (rs.foldl gatherStep acc).successful q = alistGet? acc.successful q ∧
      alistGet? (rs.foldl gatherStep acc).failed q = alistGet? acc.failed q := by
  induction rs with
  | nil => intro acc q _; exact ⟨rfl, rfl⟩
  | cons r rest ih =>
    intro acc q hq
    have hr : r.1 ≠ q := hq r (List.mem_cons_self r rest)
    have hrest : ∀ s ∈ rest, s.1 ≠ q := fun s hs => hq s (List.mem_cons_of_mem r hs)
    rw [List.foldl_cons]
    rcases ih (gatherStep acc r) q hrest with ⟨ih1, ih2⟩
    rw [ih1, ih2]
    rcases r with ⟨p, res⟩
    have hqp : q ≠ p := fun hh => hr hh.symm
    cases res with
    | ok v => exact ⟨alistGet?_set_ne _ _ _ _ hqp, rfl⟩
    | error e => exact ⟨rfl, alistGet?_set_ne _ _ _ _ hqp⟩

theorem runParallel_char {α : Type} (out : Provider → Except RunExc α) :
    ∀ (ps : List Provider) (acc : ParallelRunResult α), ps.Nodup → ∀ q,
      (q ∉ ps →
        alistGet? ((ps.map (runOne out)).foldl gatherStep acc).successful q =
          alistGet? acc.successful q ∧
        alistGet? ((ps.map (runOne out)).foldl gatherStep acc).failed q =
          alistGet? acc.failed q) ∧
      (q ∈ ps → ∀ v, out q = .ok v →
        alistGet? ((ps.map (runOne out)).foldl gatherStep acc).successful q =
          some v ∧
        alistGet? ((ps.map (runOne out)).foldl gatherStep acc).failed q =
          alistGet? acc.failed q) ∧
      (q ∈ ps → ∀ exc, out q = .error exc →
        alistGet? ((ps.map (runOne out)).foldl gatherStep acc).failed q =
          some (agentErrorOfExc q exc) ∧
        alistGet? ((ps.map (runOne out)).foldl gatherStep acc).successful q =
          alistGet? acc.successful q) := by
  intro ps
  induction ps with
  | nil =>
    intro acc _ q
    exact ⟨fun _ => ⟨rfl, rfl⟩, fun hq => absurd hq (by simp),
      fun hq => absurd hq (by simp)⟩
  | cons p rest ih =>
    intro acc hnd q
    rw [List.nodup_cons] at hnd
    have hfold : ((p :: rest).map (runOne out)).foldl gatherStep acc =
        (rest.map (runOne out)).foldl gatherStep (gatherStep acc (runOne out p)) := by
      simp [List.foldl_cons]
    have hfst : ∀ s ∈ rest.map (runOne out), ∀ x, x ∉ rest → s.1 ≠ x := by
      intro s hs x hx
      obtain ⟨r, hr, hrs⟩ := List.mem_map.mp hs
      have : s.1 = r := by
        rw [← hrs]
        cases hout : out r <;> simp [runOne, hout]
      rw [this]
      exact fun hh => hx (hh ▸ hr)
    refine ⟨?_, ?_, ?_⟩
    · intro hq
      have hqp : q ≠ p := fun hh => hq (hh ▸ List.mem_cons_self p rest)
      have hqrest : q ∉ rest := fun hh => hq (List.mem_cons_of_mem p hh)
      rw [hfold]
      rcases gather_untouched (rest.map (runOne out))
        (gatherStep acc (runOne out p)) q
        (fun s hs => hfst s hs q hqrest) with ⟨h1, h2⟩
      rw [h1, h2]
      cases hout : out p with
      | ok v => simp [runOne, hout, gatherStep, alistGet?_set_ne _ _ _ _ hqp]
      | error e => simp [runOne, hout, gatherStep, alistGet?_set_ne _ _ _ _ hqp]
    · intro hq v hout
      rw [hfold]
      rcases List.mem_cons.mp hq with hqp | hqrest
      · subst hqp
        rcases gather_untouched (rest.map (runOne out))
          (gatherStep acc (runOne out q)) q
          (fun s hs => hfst s hs q hnd.1) with ⟨h1, h2⟩
        rw [h1, h2]
        simp [runOne, hout, gatherStep, alistGet?_set_self]
      · have hqp : q ≠ p := fun hh => hnd.1 (hh ▸ hqrest)
        rcases (ih (gatherStep acc (runOne out p)) hnd.2 q).2.1 hqrest v hout with
          ⟨h1, h2⟩
        refine ⟨h1, ?_⟩
        rw [h2]
        cases houtp : out p with
        | ok w => simp [runOne, houtp, gatherStep]
        | error e => simp [runOne, houtp, gatherStep, alistGet?_set_ne _ _ _ _ hqp]
    · intro hq exc hout
      rw [hfold]
      rcases List.mem_cons.mp hq with hqp | hqrest
      · subst hqp
        rcases gather_untouched (rest.map (runOne out))
          (gatherStep acc (runOne out q)) q
          (fun s hs => hfst s hs q hnd.1) with ⟨h1, h2⟩
        rw [h1, h2]
        simp [runOne, hout, gatherStep, alistGet?_set_self]
      · have hqp : q ≠ p := fun hh => hnd.1 (hh ▸ hqrest)
        rcases (ih (gatherStep acc (runOne out p)) hnd.2 q).2.2 hqrest exc hout with
          ⟨h1, h2⟩
        refine ⟨h1, ?_⟩
        rw [h2]
        cases houtp : out p with
        | ok w => simp [runOne, houtp, gatherStep, alistGet?_set_ne _ _ _ _ hqp]
        | error e => simp [runOne, houtp, gatherStep]

/-- Claim C3: `run_parallel` over a set of requested providers never loses a
provider and never raises — modelled by totality plus the partition: each
requested provider's lookup lands in exactly one of the two dicts according
to its outcome; every failure record carries the provider's own identity,
its error-kind tag and message (via `agentErrorOfExc`); keys of the two
dicts are disjoint and jointly exactly the requested providers. -/
theorem claim3_run_parallel_partition {α : Type} (providers : List Provider)
    (out : Provider → Except RunExc α) (hnd : providers.Nodup) :
    (∀ p, (p ∈ alistKeys (run_parallel providers out).successful ∨
           p ∈ alistKeys (run_parallel providers out).failed) ↔ p ∈ providers) ∧
    (∀ p, ¬(p ∈ alistKeys (run_parallel providers out).successful ∧
            p ∈ alistKeys (run_parallel providers out).failed)) ∧
    (∀ p e, alistGet? (run_parallel providers out).failed p = some e →
      e.provider = p ∧ ∃ exc, out p = .error exc ∧ e = agentErrorOfExc p exc) ∧
    (∀ p v, p ∈ providers → out p = .ok v →
      alistGet? (run_parallel providers out).successful p = some v) ∧
    (∀ p exc, p ∈ providers → out p = .error exc →
      alistGet? (run_parallel providers out).failed p =
        some (agentErrorOfExc p exc)) := by
  have H := runParallel_char out providers ⟨[], []⟩ hnd
  have hlook : ∀ p,
      (p ∈ providers → (match out p with
        | .ok v => alistGet? (run_parallel providers out).successful p = some v ∧
            alistGet? (run_parallel providers out).failed p = none
        | .error exc =>
            alistGet? (run_parallel providers out).failed p =
              some (agentErrorOfExc p exc) ∧
            alistGet? (run_parallel providers out).successful p = none)) ∧
      (p ∉ providers →
        alistGet? (run_parallel providers out).successful p = none ∧
        alistGet? (run_parallel providers out).failed p = none) := by
    intro p
    constructor
    · intro hp
      cases hout : out p with
      | ok v => exact (H p).2.1 hp v hout
      | error exc => exact (H p).2.2 hp exc hout
    · intro hp
      exact (H p).1 hp
  constructor
  · intro p
    constructor
    · rintro (h | h) <;> by_contra hp
      · have := ((hlook p).2 hp).1
        rw [← alistGet?_isSome_iff] at h
        exact absurd h (by simp [this])
      · have := ((hlook p).2 hp).2
        rw [← alistGet?_isSome_iff] at h
        exact absurd h (by simp [this])
    · intro hp
      have := (hlook p).1 hp
      cases hout : out p with
      | ok v =>
        rw [hout] at this
        exact Or.inl ((alistGet?_isSome_iff _ _).mp (by simp [this.1]))
      | error exc =>
        rw [hout] at this
        exact Or.inr ((alistGet?_isSome_iff _ _).mp (by simp [this.1]))
  refine ⟨?_, ?_, ?_, ?_⟩
  · rintro p ⟨hs, hf⟩
    rw [← alistGet?_isSome_iff] at hs hf
    by_cases hp : p ∈ providers
    · have := (hlook p).1 hp
      cases hout : out p with
      | ok v =>
        rw [hout] at this
        simp [this.2] at hf
      | error exc =>
        rw [hout] at this
        simp [this.2] at hs
    · simp [((hlook p).2 hp).1] at hs
  · intro p e he
    by_cases hp : p ∈ providers
    · have := (hlook p).1 hp
      cases hout : out p with
      | ok v =>
        rw [hout] at this
        rw [this.2] at he
        simp at he
      | error exc =>
        rw [hout] at this
        rw [this.1] at he
        have he2 : e = agentErrorOfExc p exc := by
          simpa using he.symm
        refine ⟨?_, exc, rfl, he2⟩
        rw [he2]
        exact agentErrorOfExc_provider p exc
    · rw [((hlook p).2 hp).2] at he
      simp at he
  · intro p v hp hout
    have := (hlook p).1 hp
    rw [hout] at this
    exact this.1
  · intro p exc hp hout
    have := (hlook p).1 hp
    rw [hout] at this
    exact this.1

/-- A concrete per-provider outcome: claude succeeds, gemini fails with an
authentication error, chatgpt fails validation. -/
def out0 : Provider → Except RunExc Nat
  | .claude => .ok 1
  | .gemini => .error (.llm .authentication "bad key" none)
  | .chatgpt => .error (.valueError "invalid json")

/-- Claim C3 witness: a run over all three providers with one success and two
distinct failures partitions as expected. -/
theorem claim3_run_parallel_partition_witness :
    run_parallel [Provider.claude, .gemini, .chatgpt] out0 =
      ⟨[(.claude, 1)],
       [(.gemini, ⟨.gemini, "AuthenticationError", "bad key", none⟩),
        (.chatgpt, ⟨.chatgpt, "ValidationError", "invalid json", none⟩)]⟩ ∧
    (∀ p, (p ∈ alistKeys
        (run_parallel [Provider.claude, .gemini, .chatgpt] out0).successful ∨
        p ∈ alistKeys
          (run_parallel [Provider.claude, .gemini, .chatgpt] out0).failed) ↔
      p ∈ [Provider.claude, .gemini, .chatgpt]) :=
  ⟨by decide,
   (claim3_run_parallel_partition [Provider.claude, .gemini, .chatgpt] out0
     (by decide)).1⟩

/-! ### Retry and caching claims -/

/-- Claim C5 counterexample: with retry budget 3 and the transport raising an
authentication error on every attempt, `_call_with_retry` makes 3 network
calls, not 1 — `AuthenticationError` is a subclass of `LLMError`, which is in
`retry_if_exception_type`, so authentication failures ARE retried,
contradicting the claim that they surface after the failing attempt without
further attempts. -/
theorem claim5_auth_retried_counterexample :
    callWithRetry (fun s => Except.ok s)
        (fun _ => .llmFailure .authentication "invalid api key" none) 3 =
      (.error (.llm .authentication "invalid api key" none), 3, none) ∧
    (3 : Nat) ≠ 1 :=
  ⟨rfl, by decide⟩

theorem retryGo_auth_const {σ : Type} (parse : String → Except String σ)
    (msg : String) (o : Option String) :
    ∀ fuel i, 1 ≤ fuel →
      retryGo parse (fun _ => ChatOutcome.llmFailure .authentication msg o) i fuel =
        (.error (.llm .authentication msg o), i + fuel, none) := by
  intro fuel
  induction fuel with
  | zero => intro i h; simp at h
  | succ f ih =>
    intro i _
    by_cases hf : f = 0
    · subst hf
      rfl
    · have hstep :
          retryGo parse (fun _ => ChatOutcome.llmFailure .authentication msg o)
              i (f + 1) =
            retryGo parse (fun _ => ChatOutcome.llmFailure .authentication msg o)
              (i + 1) f := by
        rw [retryGo]
        simp [hf]
      rw [hstep, ih (i + 1) (by omega)]
      have : i + 1 + f = i + (f + 1) := by omega
      rw [this]

/-- Claim C5 (amended): authentication errors are in the retryable set
(`AuthenticationError <: LLMError`), so they are retried exactly like
transient failures: with budget `n ≥ 1` and an authentication failure on
every attempt, exactly `n` network calls are made and the final attempt's
authentication error is surfaced (`reraise=True`), not swallowed. -/
theorem claim5_auth_retried {σ : Type} (parse : String → Except String σ)
    (msg : String) (o : Option String) (n : Nat) (hn : 1 ≤ n) :
    callWithRetry parse (fun _ => .llmFailure .authentication msg o) n =
      (.error (.llm .authentication msg o), n, none) := by
  rw [callWithRetry, retryGo_auth_const parse msg o n 0 hn]
  simp

/-- Claim C5 witness: budget 2, two authentication failures, two calls. -/
theorem claim5_auth_retried_witness :
    (1 : Nat) ≤ 2 ∧
    callWithRetry (fun s => Except.ok s)
        (fun _ => .llmFailure .authentication "no credential" none) 2 =
      (.error (.llm .authentication "no credential" none), 2, none) :=
  ⟨by decide,
   claim5_auth_retried (fun s => Except.ok s) "no credential" none 2 (by decide)⟩

/-- Claim C10: on a cache hit the cached text is re-parsed by
`parse_json_response` with zero network calls and the entry left in place;
if that re-parse fails, the `ValueError` surfaces immediately — it is raised
outside the retry decorator, so the retry budget is untouched and the bad
entry is not evicted; the retry loop runs only on a cache miss. -/
theorem claim10_cache_hit_no_retry {σ : Type} (parse : String → Except String σ)
    (attempts : Nat → ChatOutcome) (n : Nat) (c m : String)
    (hbad : parse c = .error m) :
    agentRun parse (some c) attempts n = (.error (.valueError m), 0, some c) ∧
    agentRun parse (some c) attempts n =
      ((parse c).mapError .valueError, 0, some c) ∧
    agentRun parse none attempts n = callWithRetry parse attempts n := by
  refine ⟨?_, rfl, rfl⟩
  simp [agentRun, hbad, Except.mapError]

/-- Claim C10 witness: a cached malformed response fails re-parsing with zero
network calls and stays cached. -/
theorem claim10_cache_hit_no_retry_witness :
    ((fun s => if s = "good" then Except.ok () else Except.error s) "bad" =
      Except.error "bad") ∧
    agentRun (fun s => if s = "good" then Except.ok () else Except.error s)
        (some "bad") (fun _ => .content "good") 3 =
      (.error (.valueError "bad"), 0, some "bad") :=
  ⟨rfl,
   (claim10_cache_hit_no_retry
     (fun s => if s = "good" then Except.ok () else Except.error s)
     (fun _ => .content "good") 3 "bad" "bad" rfl).1⟩

/-! ### Provider-mapping claims -/

/-- Claim C6 counterexample: `from_dict` does not validate distinctness, so
the stored dict mapping every alias to `"claude"` deserialises successfully
into a non-bijective mapping; on it the reverse dict keeps only the last
entry, so `get_alias(get_provider("aleph"))` is `gimel`, not `aleph`, and
gemini is assigned to no alias slot. -/
theorem claim6_mapping_counterexample :
    from_dict dupDict = some ⟨.claude, .claude, .claude⟩ ∧
    get_alias ⟨.claude, .claude, .claude⟩
        (get_provider ⟨.claude, .claude, .claude⟩ .aleph) = some .gimel ∧
    some Alias.gimel ≠ some Alias.aleph ∧
    ¬ (assignedProviders ⟨.claude, .claude, .claude⟩).Nodup ∧
    Provider.gemini ∉ assignedProviders ⟨.claude, .claude, .claude⟩ := by
  refine ⟨rfl, rfl, by decide, by decide, by decide⟩

/-- Claim C6 (amended): every mapping built by `create_random` (from any
shuffle outcome) is a bijection — the three alias slots hold all three
providers without duplication and `get_alias (get_provider a) = a` for every
alias; `from_dict` fails whenever one of the three alias keys is missing;
and a deserialised mapping satisfies the same bijection properties provided
its three stored providers are distinct (which `from_dict` does not check). -/
theorem claim6_mapping_bijective :
    (∀ shuffled : List Provider, List.Perm shuffled PROVIDERS →
      List.Perm (assignedProviders (create_random shuffled)) PROVIDERS ∧
      ∀ a, get_alias (create_random shuffled)
        (get_provider (create_random shuffled) a) = some a) ∧
    (∀ d : List (String × String),
      (alistGet? d "aleph" = none ∨ alistGet? d "bet" = none ∨
        alistGet? d "gimel" = none) → from_dict d = none) ∧
    (∀ (d : List (String × String)) (m : ProviderMapping),
      from_dict d = some m → (assignedProviders m).Nodup →
      List.Perm (assignedProviders m) PROVIDERS ∧
      ∀ a, get_alias m (get_provider m a) = some a) := by
  refine ⟨?_, ?_, ?_⟩
  · intro shuffled h
    have hl : shuffled.length = 3 := by simpa using h.length_eq
    rcases shuffled with _ | ⟨a, rest⟩
    · simp at hl
    rcases rest with _ | ⟨b, rest2⟩
    · simp at hl
    rcases rest2 with _ | ⟨c, rest3⟩
    · simp at hl
    rcases rest3 with _ | ⟨e, rest4⟩
    · revert h
      cases a <;> cases b <;> cases c <;> decide
    · simp at hl
  · intro d h
    rcases h with h | h | h
    · simp [from_dict, h]
    · cases ha : alistGet? d "aleph" <;> simp [from_dict, h, ha]
    · cases ha : alistGet? d "aleph" <;> cases hb : alistGet? d "bet" <;>
        simp [from_dict, h, ha, hb]
  · intro d m _ hnd
    revert hnd
    rcases m with ⟨x, y, z⟩
    cases x <;> cases y <;> cases z <;> decide

/-- Claim C6 witness: a shuffle outcome and a one-key dict. -/
theorem claim6_mapping_bijective_witness :
    List.Perm (assignedProviders (create_random [.gemini, .claude, .chatgpt]))
      PROVIDERS ∧
    from_dict [("aleph", "claude")] = none :=
  ⟨(claim6_mapping_bijective.1 [.gemini, .claude, .chatgpt] (by decide)).1,
   claim6_mapping_bijective.2.1 [("aleph", "claude")]
     (Or.inr (Or.inl (by decide)))⟩

/-! ### Obfuscation round-trip claims -/

/-- Claim C7 counterexample: the token `aleph` is a clean, unambiguous,
exact-token occurrence of an alias name, yet the round trip rewrites it: the
obfuscation pass leaves it unchanged (it matches no provider spelling) and
the reveal pass maps it to the provider assigned to aleph, so
`reveal(obfuscate("aleph")) = "claude" ≠ "aleph"` under the identity
shuffle mapping. -/
theorem claim7_roundtrip_counterexample :
    obfuscate_provider_in_text mapping0 ["aleph"] = some ["aleph"] ∧
    reveal_provider_in_text mapping0 ["aleph"] = ["claude"] ∧
    (["claude"] : List String) ≠ ["aleph"] := by
  refine ⟨by decide, by decide, by decide⟩

theorem tok_roundtrip_pv :
    ∀ m : ProviderMapping, (assignedProviders m).Nodup →
      ∀ t ∈ providerVariants, (obfuscateTok m t).map (revealTok m) = some t := by
  decide

theorem revealTok_neutral (m : ProviderMapping) (t : String)
    (ht : t ∉ aliasVariants) : revealTok m t = t := by
  have h : ¬t = "aleph" ∧ ¬t = "bet" ∧ ¬t = "gimel" ∧ ¬t = "Aleph" ∧
      ¬t = "Bet" ∧ ¬t = "Gimel" ∧ ¬t = "ALEPH" ∧ ¬t = "BET" ∧ ¬t = "GIMEL" := by
    simpa [aliasVariants] using ht
  obtain ⟨h1, h2, h3, h4, h5, h6, h7, h8, h9⟩ := h
  simp [revealTok, ALIASES, aliasName, aliasTitle, aliasUpper, replaceTok,
    h1, h2, h3, h4, h5, h6, h7, h8, h9]

theorem obfuscateTok_neutral (m : ProviderMapping)
    (hm : (assignedProviders m).Nodup) (t : String)
    (hp : t ∉ providerVariants) : obfuscateTok m t = some t := by
  have h : ¬t = "claude" ∧ ¬t = "gemini" ∧ ¬t = "chatgpt" ∧ ¬t = "Claude" ∧
      ¬t = "Gemini" ∧ ¬t = "Chatgpt" ∧ ¬t = "CLAUDE" ∧ ¬t = "GEMINI" ∧
      ¬t = "CHATGPT" := by
    simpa [providerVariants] using hp
  obtain ⟨h1, h2, h3, h4, h5, h6, h7, h8, h9⟩ := h
  rcases m with ⟨x, y, z⟩
  cases x <;> cases y <;> cases z <;>
    first
      | exact absurd hm (by decide)
      | simp [obfuscateTok, obfuscateTokGo, PROVIDERS, get_alias, providerName,
          providerTitle, providerUpper, aliasName, aliasTitle, aliasUpper,
          replaceTok, h1, h2, h3, h4, h5, h6, h7, h8, h9]

theorem tok_roundtrip (m : ProviderMapping) (hm : (assignedProviders m).Nodup)
    (t : String) (ht : t ∉ aliasVariants) :
    (obfuscateTok m t).map (revealTok m) = some t := by
  by_cases hp : t ∈ providerVariants
  · exact tok_roundtrip_pv m hm t hp
  · rw [obfuscateTok_neutral m hm t hp]
    simp [revealTok_neutral m t ht]

/-- Claim C7 (amended): for every bijective mapping and every text whose
tokens are clean, non-overlapping, exact-token occurrences that are not
alias spellings (provider spellings in the three case styles, and neutral
words, are allowed — pre-existing alias spellings break the round trip, see
the counterexample), `reveal(obfuscate(text)) = text`. -/
theorem claim7_obfuscation_roundtrip (m : ProviderMapping)
    (hm : (assignedProviders m).Nodup) (text : List String)
    (ht : ∀ t ∈ text, t ∉ aliasVariants) :
    (obfuscate_provider_in_text m text).map (reveal_provider_in_text m) =
      some text := by
  induction text with
  | nil => rfl
  | cons t ts ih =>
    have h1 := tok_roundtrip m hm t (ht t (List.mem_cons_self t ts))
    have h2 := ih (fun s hs => ht s (List.mem_cons_of_mem t hs))
    obtain ⟨y, hy⟩ : ∃ y, obfuscateTok m t = some y := by
      cases hob : obfuscateTok m t
      · rw [hob] at h1
        simp at h1
      · exact ⟨_, rfl⟩
    have hy2 : revealTok m y = t := by
      rw [hy] at h1
      simpa using h1
    obtain ⟨out, hout⟩ : ∃ out, obfuscate_provider_in_text m ts = some out := by
      cases hob2 : obfuscate_provider_in_text m ts
      · rw [hob2] at h2
        simp at h2
      · exact ⟨_, rfl⟩
    have hout2 : out.map (revealTok m) = ts := by
      rw [hout] at h2
      simpa [reveal_provider_in_text] using h2
    simp [obfuscate_provider_in_text, hy, hout, reveal_provider_in_text, hy2,
      hout2]

/-- Claim C7 witness: a text with provider spellings in all three case
styles plus a neutral word round-trips under the identity shuffle mapping. -/
theorem claim7_obfuscation_roundtrip_witness :
    ((assignedProviders mapping0).Nodup ∧
      ∀ t ∈ ["claude", "writes", "GEMINI", "Chatgpt"], t ∉ aliasVariants) ∧
    (obfuscate_provider_in_text mapping0
        ["claude", "writes", "GEMINI", "Chatgpt"]).map
      (reveal_provider_in_text mapping0) =
      some ["claude", "writes", "GEMINI", "Chatgpt"] :=
  ⟨⟨by decide, by decide⟩,
   claim7_obfuscation_roundtrip mapping0 (by decide) _ (by decide)⟩

/-! ### Consensus claims -/

/-- Claim C1: for every non-empty judge-result dict, the consensus ranking
is exactly the Borda aggregation — it lists, without duplicates, precisely
the providers that received a vote, ordered so that an earlier provider
either has a strictly greater 3/2/1-point total or ties and first appeared
earlier in the accumulation (judges in dict order; 1st, 2nd, 3rd within a
judge).  The witness instantiates the spec's example `[(A,B,C), (B,A,C)]`
with totals A:5, B:5, C:2 and the first-seen provider ranked first. -/
theorem claim1_consensus_borda (jrs : List (Provider × JudgeResult))
    (_hne : jrs ≠ []) :
    (calculate_consensus jrs).Nodup ∧
    (∀ p, p ∈ calculate_consensus jrs ↔ p ∈ allVotes (jrs.map Prod.snd)) ∧
    (calculate_consensus jrs).Pairwise (fun p q =>
      bordaScore (jrs.map Prod.snd) q < bordaScore (jrs.map Prod.snd) p ∨
        (bordaScore (jrs.map Prod.snd) p = bordaScore (jrs.map Prod.snd) q ∧
          firstSeenRank (allVotes (jrs.map Prod.snd)) p <
            firstSeenRank (allVotes (jrs.map Prod.snd)) q)) :=
  ⟨consensus_nodup jrs, consensus_mem jrs, consensus_pairwise jrs⟩

/-- Claim C1 witness: the spec's Borda example, A = claude, B = gemini,
C = chatgpt. -/
theorem claim1_consensus_borda_witness :
    (calculate_consensus judgesAB = [.claude, .gemini, .chatgpt] ∧
      bordaScore (judgesAB.map Prod.snd) .claude = 5 ∧
      bordaScore (judgesAB.map Prod.snd) .gemini = 5 ∧
      bordaScore (judgesAB.map Prod.snd) .chatgpt = 2) ∧
    ((calculate_consensus judgesAB).Nodup ∧
      (∀ p, p ∈ calculate_consensus judgesAB ↔
        p ∈ allVotes (judgesAB.map Prod.snd)) ∧
      (calculate_consensus judgesAB).Pairwise (fun p q =>
        bordaScore (judgesAB.map Prod.snd) q <
            bordaScore (judgesAB.map Prod.snd) p ∨
          (bordaScore (judgesAB.map Prod.snd) p =
              bordaScore (judgesAB.map Prod.snd) q ∧
            firstSeenRank (allVotes (judgesAB.map Prod.snd)) p <
              firstSeenRank (allVotes (judgesAB.map Prod.snd)) q))) :=
  ⟨by decide, claim1_consensus_borda judgesAB (by decide)⟩

/-- Claim C8: the consensus ranking contains exactly the distinct providers
that received at least one vote from at least one judge (so a configured
provider with no votes is absent), and the consensus of an empty judgment
dict is the empty ranking, not an error. -/
theorem claim8_consensus_votes_only :
    calculate_consensus [] = [] ∧
    ∀ jrs : List (Provider × JudgeResult),
      (calculate_consensus jrs).Nodup ∧
      ∀ p, p ∈ calculate_consensus jrs ↔ p ∈ allVotes (jrs.map Prod.snd) :=
  ⟨rfl, fun jrs => ⟨consensus_nodup jrs, consensus_mem jrs⟩⟩

end WriteAssist
